import Mathlib

/-!
Shallow embedding of the Hummock epoch-scoped write/read core of this
repository, together with the leaf numeric vector-division utilities.

Embedded source files:
* `src/storage/src/hummock/conflict_detector.rs` (the `ConflictDetector`)
* `rust/storage/src/hummock/state_store.rs` (the state-store facade)
* `rust/server/src/vector_op/div_op.rs` (checked element-wise division)

Modelling conventions: `Bytes` is a list of byte values; an epoch
(`HummockEpoch`, Rust `u64`) is a `Nat` with `HummockEpoch::MIN = 0`;
the concurrent maps
(`DashMap`, `DashSet`, `HashSet`) are association lists / lists used as
sets, adequate for the sequential semantics of the operations; a Rust
`assert!` failure (panic) is modelled explicitly in each operation's
return type.  The `check_conflict_and_track_write_batch` operation
returns the detector state on the panic path as well, because the
source mutates the shared key-tracking map in place before the failing
assertion fires.
-/

abbrev Bytes := List Nat

abbrev HummockEpoch := Nat

/-- `HummockValue<Bytes>`: a put payload or a deletion marker (the source's
`Delete` constructor carries auxiliary data, built with `Default::default()`
in the tests). -/
inductive HummockValue where
  | put (payload : Bytes) : HummockValue
  | delete (meta : Bytes) : HummockValue
deriving DecidableEq, Repr

/-- State of the `ConflictDetector`: `epoch_history` maps an epoch to the
set of keys written so far in that epoch, `epoch_watermark` is the atomic
watermark cell, `epoch_set` is the archived-epoch set. -/
structure ConflictDetector where
  epoch_history : List (Nat × List Bytes)
  epoch_watermark : Nat
  epoch_set : List Nat
deriving DecidableEq, Repr

/-- `Default for ConflictDetector`: empty history, watermark `HummockEpoch::MIN`,
empty archived set. -/
def ConflictDetector.default : ConflictDetector := ⟨[], 0, []⟩

/-- Association-list lookup for the `epoch_history` map. -/
def historyLookup (h : List (Nat × List Bytes)) (e : Nat) :
    Option (List Bytes) :=
  match h with
  | [] => none
  | (e', s) :: rest => if e' = e then some s else historyLookup rest e

/-- Association-list store for the `epoch_history` map: replaces the entry for
`e` if present, otherwise appends a fresh one. -/
def historyUpdate (h : List (Nat × List Bytes)) (e : Nat)
    (s : List Bytes) : List (Nat × List Bytes) :=
  match h with
  | [] => [(e, s)]
  | (e', s') :: rest =>
    if e' = e then (e, s) :: rest else (e', s') :: historyUpdate rest e s

/-- `epoch_history.remove(&e)`. -/
def historyRemove (h : List (Nat × List Bytes)) (e : Nat) :
    List (Nat × List Bytes) :=
  h.filter (fun p => decide (p.1 ≠ e))

/-- `get_epoch_watermark`: lock-free read of the watermark cell. -/
def ConflictDetector.get_epoch_watermark (d : ConflictDetector) : Nat :=
  d.epoch_watermark

/-- `set_watermark`: the CAS loop collapses, sequentially, to one attempt; the
`assert!(epoch > current_watermark)` failure is the `none` result. -/
def ConflictDetector.set_watermark (d : ConflictDetector) (epoch : Nat) :
    Option ConflictDetector :=
  if d.epoch_watermark < epoch then
    some { d with epoch_watermark := epoch }
  else
    none

/-- Result of `check_conflict_and_track_write_batch`: either the updated
detector, or a panic together with the in-memory detector state left behind
(the source inserts keys into the shared map before the failing assertion). -/
inductive CheckResult where
  | ok (d : ConflictDetector)
  | panicked (d : ConflictDetector)
deriving DecidableEq, Repr

/-- The `for (key, value) in kv_pairs` loop body: `written_key.insert(key)`
for each key in order, stopping with `false` at the first key already
present (that insert returns `false` and the assertion fires). Returns the
success flag and the key set as mutated so far. -/
def trackWriteKeys (written : List Bytes) (kv_pairs : List (Bytes × HummockValue)) :
    Bool × List Bytes :=
  match kv_pairs with
  | [] => (true, written)
  | (key, _) :: rest =>
    if key ∈ written then (false, written)
    else trackWriteKeys (key :: written) rest

/-- `check_conflict_and_track_write_batch(kv_pairs, epoch)`: asserts
`epoch > watermark`, then `epoch ∉ epoch_set`; both failures leave the state
untouched.  Then `epoch_history.entry(epoch).or_insert(HashSet::new())`
materialises the epoch's key set and each key of the batch is inserted in
order; a duplicate insert panics with the partially updated map in place. -/
def ConflictDetector.check_conflict_and_track_write_batch (d : ConflictDetector)
    (kv_pairs : List (Bytes × HummockValue)) (epoch : Nat) : CheckResult :=
  if ¬ d.epoch_watermark < epoch then .panicked d
  else if epoch ∈ d.epoch_set then .panicked d
  else
    let written := (historyLookup d.epoch_history epoch).getD []
    let r := trackWriteKeys written kv_pairs
    let d' := { d with epoch_history := historyUpdate d.epoch_history epoch r.2 }
    if r.1 then .ok d' else .panicked d'

/-- `archive_epoch(epoch, first_epoch)`: asserts `epoch > watermark` and that
`epoch_set.insert(epoch)` is fresh, removes the epoch's history entry, and if
`first_epoch` is supplied with `first_epoch - 1` differing from the current
watermark, runs `set_watermark(first_epoch - 1)` (whose own assertion can
panic) and prunes `epoch_set` to the epochs above the new watermark.
`none` is a panic (on the panic paths the claims only need the fact of the
panic, not the residual state).

The detector state right after `archive_epoch` passed its two assertions —
the epoch inserted into the archived set, its history entry removed (the
source mutates `self` in place) — is named `archivedState`. -/
def archivedState (d : ConflictDetector) (epoch : Nat) : ConflictDetector :=
  { d with
      epoch_set := epoch :: d.epoch_set,
      epoch_history := historyRemove d.epoch_history epoch }

def ConflictDetector.archive_epoch (d : ConflictDetector) (epoch : Nat)
    (first_epoch : Option Nat) : Option ConflictDetector :=
  if ¬ d.epoch_watermark < epoch then none
  else if epoch ∈ d.epoch_set then none
  else
    match first_epoch with
    | none => some (archivedState d epoch)
    | some f =>
      if f - 1 ≠ (archivedState d epoch).epoch_watermark then
        match (archivedState d epoch).set_watermark (f - 1) with
        | none => none
        | some d2 =>
          some { d2 with epoch_set := d2.epoch_set.filter (fun x => decide (f - 1 < x)) }
      else
        some (archivedState d epoch)

/-- The state of the key-tracking map after the batch loop of
`check_conflict_and_track_write_batch` processed `kv_pairs` (whether or not
the loop finished without a conflict). -/
def checkResultState (d : ConflictDetector)
    (kv_pairs : List (Bytes × HummockValue)) (epoch : Nat) :
    ConflictDetector :=
  { d with
      epoch_history :=
        historyUpdate d.epoch_history epoch
          (trackWriteKeys ((historyLookup d.epoch_history epoch).getD []) kv_pairs).2 }

/-- One successful (non-panicking) operation of the `ConflictDetector`. -/
inductive ConflictDetector.Step : ConflictDetector → ConflictDetector → Prop where
  | check (d d' : ConflictDetector) (kv_pairs : List (Bytes × HummockValue))
      (epoch : Nat)
      (h : d.check_conflict_and_track_write_batch kv_pairs epoch = .ok d') :
      ConflictDetector.Step d d'
  | archive (d d' : ConflictDetector) (epoch : Nat)
      (first_epoch : Option Nat)
      (h : d.archive_epoch epoch first_epoch = some d') :
      ConflictDetector.Step d d'
  | setw (d d' : ConflictDetector) (epoch : Nat)
      (h : d.set_watermark epoch = some d') :
      ConflictDetector.Step d d'

/-- States reachable from the initial detector by non-panicking calls. -/
inductive ConflictDetector.Reachable : ConflictDetector → Prop where
  | init : ConflictDetector.Reachable ConflictDetector.default
  | step {d d' : ConflictDetector} (hr : ConflictDetector.Reachable d)
      (hs : ConflictDetector.Step d d') : ConflictDetector.Reachable d'

/-! ## State-store facade (`rust/storage/src/hummock/state_store.rs`) -/

/-- Rust `Bytes::cmp` / `[u8]::cmp`: lexicographic byte-wise comparison,
with a proper prefix comparing less. -/
def bytesCmp : Bytes → Bytes → Ordering
  | [], [] => .eq
  | [], _ :: _ => .lt
  | _ :: _, [] => .gt
  | x :: xs, y :: ys =>
    if x < y then .lt
    else if y < x then .gt
    else bytesCmp xs ys

/-- The key order used by `ingest_batch`'s sort, as a boolean `≤`. -/
def bytesLeKey (p q : Bytes × Option Bytes) : Bool :=
  decide (bytesCmp p.1 q.1 ≠ Ordering.gt)

/-- The conversion `v.map(|x| x.to_vec()).into()` applied to each value before
the pairs reach `write_batch`: a present value becomes a put, an absent one a
deletion marker. -/
def hummockValueOfOption : Option Bytes → HummockValue
  | some v => .put v
  | none => .delete []

/-- `ingest_batch(kv_pairs, epoch)`: sorts the batch by key
(`kv_pairs.sort_by(|(k1, _), (k2, _)| k1.cmp(k2))`, a stable sort) and maps
each pair through the value conversion; the result is exactly the sequence
handed to the storage engine's `write_batch`.  The epoch is forwarded
unchanged and does not influence the sequence. -/
def ingest_batch (kv_pairs : List (Bytes × Option Bytes)) :
    List (Bytes × HummockValue) :=
  (kv_pairs.mergeSort bytesLeKey).map (fun p => (p.1, hummockValueOfOption p.2))

/-- Modelled from the spec: the `DirectedUserIterator` type lives in the
`hummock::iterator` module, which is not part of this repository excerpt; the
spec describes it as a directed cursor over a sorted, versioned key space with
`is_valid` / `key` / `value` / `next`.  It is modelled as the list of
key/value entries remaining ahead of the cursor, in iteration order. -/
abbrev DirectedUserIterator := List (Bytes × Bytes)

/-- Modelled from the spec: the cursor is valid while entries remain. -/
def DirectedUserIterator.is_valid (it : DirectedUserIterator) : Bool :=
  !it.isEmpty

/-- Modelled from the spec: the key at the cursor (readable only when valid). -/
def DirectedUserIterator.key (it : DirectedUserIterator) : Bytes :=
  (it.headD ([], [])).1

/-- Modelled from the spec: the value at the cursor (readable only when valid). -/
def DirectedUserIterator.value (it : DirectedUserIterator) : Bytes :=
  (it.headD ([], [])).2

/-- Modelled from the spec: advancing the cursor drops the current entry. -/
def DirectedUserIterator.next (it : DirectedUserIterator) : DirectedUserIterator :=
  it.tail

/-- `HummockStateStoreIter::next`: if the inner cursor is valid, copy out the
current key/value pair, advance the cursor and return the pair; otherwise
return `None` and leave the cursor untouched.  The returned pair is the first
component; the cursor state after the call is the second. -/
def HummockStateStoreIter.next (it : DirectedUserIterator) :
    Option (Bytes × Bytes) × DirectedUserIterator :=
  if it.is_valid then
    (some (it.key, it.value), it.next)
  else
    (none, it)

/-! ## Vector division (`rust/server/src/vector_op/div_op.rs`) -/

/-- The error code raised by the checked vector operations. -/
inductive ErrorCode where
  | NumericValueOutOfRange
deriving DecidableEq, Repr

/-- The loop of `vector_div_primitive_integer` over `a.iter().zip(b.iter())`:
when both operands are present, `a.as_().checked_div(&b.as_())` either yields
the appended quotient or returns the out-of-range error for the whole call;
when either operand is absent a null element is appended. -/
def vdivIntLoop {α β γ : Type} (as1 : α → γ) (as2 : β → γ)
    (checked_div : γ → γ → Option γ) :
    List (Option α) → List (Option β) → Except ErrorCode (List (Option γ))
  | oa :: a', ob :: b' =>
    match oa, ob with
    | some x, some y =>
      match checked_div (as1 x) (as2 y) with
      | some c => (vdivIntLoop as1 as2 checked_div a' b').map (some c :: ·)
      | none => .error .NumericValueOutOfRange
    | _, _ => (vdivIntLoop as1 as2 checked_div a' b').map (none :: ·)
  | _, _ => .ok []

/-- `vector_div_primitive_integer(a, b)`: checked element-wise division of two
primitive arrays (arrays are lists of optional elements; the builder calls
are total in this model).  Generic over the `as_` conversions and the
`CheckedDiv` implementation, as the source is over `T1`, `T2`, `T3`. -/
def vector_div_primitive_integer {α β γ : Type} (as1 : α → γ) (as2 : β → γ)
    (checked_div : γ → γ → Option γ)
    (a : List (Option α)) (b : List (Option β)) :
    Except ErrorCode (List (Option γ)) :=
  vdivIntLoop as1 as2 checked_div a b

/-- `i64::checked_div`: `None` when the divisor is zero or when the division
overflows (`i64::MIN / -1`); otherwise the quotient truncated toward zero. -/
def checkedDivI64 (a b : Int) : Option Int :=
  if b = 0 then none
  else if a = -(2 ^ 63) ∧ b = -1 then none
  else some (a.tdiv b)

/-- The loop of `vector_div_primitive_float`: when both operands are present,
`v = a.as_() / b.as_()` is appended if `v.is_finite() && !v.is_nan()`, and
otherwise the out-of-range error is returned for the whole call; when either
operand is absent a null element is appended. -/
def vdivFloatLoop {α β γ : Type} (as1 : α → γ) (as2 : β → γ) (fdiv : γ → γ → γ)
    (finiteTest nanTest : γ → Bool) :
    List (Option α) → List (Option β) → Except ErrorCode (List (Option γ))
  | oa :: a', ob :: b' =>
    match oa, ob with
    | some x, some y =>
      let v := fdiv (as1 x) (as2 y)
      if finiteTest v && !nanTest v then
        (vdivFloatLoop as1 as2 fdiv finiteTest nanTest a' b').map (some v :: ·)
      else
        .error .NumericValueOutOfRange
    | _, _ => (vdivFloatLoop as1 as2 fdiv finiteTest nanTest a' b').map (none :: ·)
  | _, _ => .ok []

/-- `vector_div_primitive_float(a, b)`: element-wise float division of two
primitive arrays, generic over the `as_` conversions, the division, and the
`is_finite` / `is_nan` predicates of the float type `T3` (floating-point
arithmetic itself is kept abstract; the claims about this function concern
its control flow, which is independent of the concrete float semantics). -/
def vector_div_primitive_float {α β γ : Type} (as1 : α → γ) (as2 : β → γ)
    (fdiv : γ → γ → γ) (finiteTest nanTest : γ → Bool)
    (a : List (Option α)) (b : List (Option β)) :
    Except ErrorCode (List (Option γ)) :=
  vdivFloatLoop as1 as2 fdiv finiteTest nanTest a b

/-- The expected element at one position of the integer division output. -/
def elemDivInt {α β γ : Type} (as1 : α → γ) (as2 : β → γ)
    (checked_div : γ → γ → Option γ) (oa : Option α) (ob : Option β) : Option γ :=
  match oa, ob with
  | some x, some y => checked_div (as1 x) (as2 y)
  | _, _ => none

/-- The expected element at one position of the float division output. -/
def elemDivFloat {α β γ : Type} (as1 : α → γ) (as2 : β → γ) (fdiv : γ → γ → γ)
    (oa : Option α) (ob : Option β) : Option γ :=
  match oa, ob with
  | some x, some y => some (fdiv (as1 x) (as2 y))
  | _, _ => none

/-! ## Helper lemmas: conflict detector -/

theorem check_panicked_of_stale (d : ConflictDetector)
    (kv_pairs : List (Bytes × HummockValue)) (epoch : Nat)
    (h : epoch ≤ d.epoch_watermark ∨ epoch ∈ d.epoch_set) :
    d.check_conflict_and_track_write_batch kv_pairs epoch = .panicked d := by
  unfold ConflictDetector.check_conflict_and_track_write_batch
  rcases h with h | h
  · rw [if_pos (Nat.not_lt.mpr h)]
  · rcases Nat.lt_or_ge d.epoch_watermark epoch with hw | hw
    · rw [if_neg (not_not_intro hw), if_pos h]
    · rw [if_pos (Nat.not_lt.mpr hw)]

theorem check_eq_of_valid (d : ConflictDetector)
    (kv_pairs : List (Bytes × HummockValue)) (epoch : Nat)
    (hW : d.epoch_watermark < epoch) (hS : epoch ∉ d.epoch_set) :
    d.check_conflict_and_track_write_batch kv_pairs epoch =
      if (trackWriteKeys ((historyLookup d.epoch_history epoch).getD []) kv_pairs).1 then
        CheckResult.ok (checkResultState d kv_pairs epoch)
      else
        CheckResult.panicked (checkResultState d kv_pairs epoch) := by
  unfold ConflictDetector.check_conflict_and_track_write_batch
  rw [if_neg (not_not_intro hW), if_neg hS]
  simp only [checkResultState]

theorem set_watermark_eq_some_iff (d : ConflictDetector) (e : Nat)
    (d' : ConflictDetector) :
    d.set_watermark e = some d' ↔
      d.epoch_watermark < e ∧ d' = { d with epoch_watermark := e } := by
  unfold ConflictDetector.set_watermark
  by_cases hlt : d.epoch_watermark < e
  · rw [if_pos hlt]
    constructor
    · intro hsw
      exact ⟨hlt, (Option.some_inj.mp hsw).symm⟩
    · rintro ⟨-, rfl⟩
      rfl
  · rw [if_neg hlt]
    constructor
    · intro hsw
      exact absurd hsw (by simp)
    · rintro ⟨hlt', -⟩
      exact absurd hlt' hlt

theorem set_watermark_eq_none_iff (d : ConflictDetector) (e : Nat) :
    d.set_watermark e = none ↔ e ≤ d.epoch_watermark := by
  unfold ConflictDetector.set_watermark
  by_cases hlt : d.epoch_watermark < e
  · rw [if_pos hlt]
    constructor
    · intro hsw
      exact absurd hsw (Option.some_ne_none _)
    · intro hle
      exact absurd hlt (Nat.not_lt.mpr hle)
  · rw [if_neg hlt]
    exact iff_of_true rfl (Nat.not_lt.mp hlt)

theorem trackWriteKeys_ok_iff (kv_pairs : List (Bytes × HummockValue)) :
    ∀ s : List Bytes, (trackWriteKeys s kv_pairs).1 = true ↔
      (kv_pairs.map Prod.fst).Nodup ∧ ∀ k ∈ kv_pairs.map Prod.fst, k ∉ s := by
  induction kv_pairs with
  | nil => intro s; simp [trackWriteKeys]
  | cons p rest ih =>
    intro s
    obtain ⟨key, v⟩ := p
    simp only [trackWriteKeys, List.map_cons, List.nodup_cons, List.mem_cons]
    by_cases hk : key ∈ s
    · rw [if_pos hk]
      simp only [show ((false, s).1 = true) ↔ False by simp, false_iff]
      rintro ⟨-, hall⟩
      exact hall key (Or.inl rfl) hk
    · rw [if_neg hk, ih (key :: s)]
      constructor
      · rintro ⟨hnd, hall⟩
        refine ⟨⟨fun hmem => (hall key hmem) (List.mem_cons_self key s), hnd⟩, ?_⟩
        rintro k (rfl | hks)
        · exact hk
        · exact fun hs => hall k hks (List.mem_cons_of_mem _ hs)
      · rintro ⟨⟨hknd, hnd⟩, hall⟩
        refine ⟨hnd, fun k hkmem hkcons => ?_⟩
        rcases List.mem_cons.mp hkcons with rfl | hks
        · exact hknd hkmem
        · exact hall k (Or.inr hkmem) hks

theorem mem_trackWriteKeys_init (kv_pairs : List (Bytes × HummockValue)) :
    ∀ (s : List Bytes) (k : Bytes), k ∈ s → k ∈ (trackWriteKeys s kv_pairs).2 := by
  induction kv_pairs with
  | nil => intro s k hk; simpa [trackWriteKeys] using hk
  | cons p rest ih =>
    intro s k hk
    obtain ⟨key, v⟩ := p
    simp only [trackWriteKeys]
    by_cases h : key ∈ s
    · simpa [h] using hk
    · rw [if_neg h]; exact ih _ _ (List.mem_cons_of_mem _ hk)

theorem mem_trackWriteKeys_of_ok (kv_pairs : List (Bytes × HummockValue)) :
    ∀ (s : List Bytes) (k : Bytes), (trackWriteKeys s kv_pairs).1 = true →
      k ∈ kv_pairs.map Prod.fst → k ∈ (trackWriteKeys s kv_pairs).2 := by
  induction kv_pairs with
  | nil => simp
  | cons p rest ih =>
    intro s k hok hmem
    obtain ⟨key, v⟩ := p
    simp only [trackWriteKeys] at hok ⊢
    by_cases h : key ∈ s
    · rw [if_pos h] at hok; simp at hok
    · rw [if_neg h] at hok ⊢
      rw [List.map_cons] at hmem
      rcases List.mem_cons.mp hmem with rfl | hm
      · exact mem_trackWriteKeys_init rest _ _ (List.mem_cons_self _ _)
      · exact ih _ _ hok hm

theorem trackWriteKeys_append (pre suf : List (Bytes × HummockValue)) :
    ∀ s : List Bytes, (trackWriteKeys s pre).1 = true →
      trackWriteKeys s (pre ++ suf) = trackWriteKeys (trackWriteKeys s pre).2 suf := by
  induction pre with
  | nil => intro s _; simp [trackWriteKeys]
  | cons p rest ih =>
    intro s hok
    obtain ⟨key, v⟩ := p
    simp only [trackWriteKeys, List.cons_append] at hok ⊢
    by_cases h : key ∈ s
    · simp only [if_pos h] at hok; simp at hok
    · simp only [if_neg h] at hok ⊢; exact ih _ hok

theorem historyLookup_update_self (h : List (Nat × List Bytes))
    (e : Nat) (s : List Bytes) :
    historyLookup (historyUpdate h e s) e = some s := by
  induction h with
  | nil => simp [historyUpdate, historyLookup]
  | cons p rest ih =>
    obtain ⟨e', s'⟩ := p
    by_cases he : e' = e
    · subst he; simp [historyUpdate, historyLookup]
    · simp only [historyUpdate, if_neg he, historyLookup]
      exact ih

theorem historyLookup_update_other (h : List (Nat × List Bytes))
    (e : Nat) (s : List Bytes) (e' : Nat) (hne : e' ≠ e) :
    historyLookup (historyUpdate h e s) e' = historyLookup h e' := by
  induction h with
  | nil =>
    simp only [historyUpdate, historyLookup]
    rw [if_neg (Ne.symm hne)]
  | cons p rest ih =>
    obtain ⟨e'', s''⟩ := p
    by_cases he : e'' = e
    · subst he
      simp only [historyUpdate, if_pos rfl, historyLookup]
      rw [if_neg (Ne.symm hne), if_neg (Ne.symm hne)]
    · simp only [historyUpdate, if_neg he, historyLookup]
      by_cases he' : e'' = e'
      · rw [if_pos he', if_pos he']
      · rw [if_neg he', if_neg he']
        exact ih

theorem historyLookup_remove_self (h : List (Nat × List Bytes))
    (e : Nat) : historyLookup (historyRemove h e) e = none := by
  induction h with
  | nil => simp [historyRemove, historyLookup]
  | cons p rest ih =>
    obtain ⟨e', s'⟩ := p
    by_cases he : e' = e
    · subst he; simpa [historyRemove, historyLookup] using ih
    · simpa [historyRemove, historyLookup, he] using ih

theorem historyLookup_remove_other (h : List (Nat × List Bytes))
    (e e' : Nat) (hne : e' ≠ e) :
    historyLookup (historyRemove h e) e' = historyLookup h e' := by
  induction h with
  | nil => simp [historyRemove, historyLookup]
  | cons p rest ih =>
    obtain ⟨e'', s''⟩ := p
    by_cases he : e'' = e
    · subst he
      simp only [historyRemove, List.filter_cons, decide_eq_true_eq]
      rw [if_neg (by simp)]
      simp only [historyLookup]
      rw [if_neg (fun h => hne h.symm)]
      exact ih
    · simp only [historyRemove, List.filter_cons, decide_eq_true_eq]
      rw [if_pos (by simp [he])]
      simp only [historyLookup]
      by_cases he' : e'' = e'
      · rw [if_pos he', if_pos he']
      · rw [if_neg he', if_neg he']
        exact ih

theorem check_eq_ok_dest (d : ConflictDetector)
    (kv_pairs : List (Bytes × HummockValue)) (epoch : Nat)
    (d' : ConflictDetector)
    (h : d.check_conflict_and_track_write_batch kv_pairs epoch = .ok d') :
    d.epoch_watermark < epoch ∧ epoch ∉ d.epoch_set ∧
      (trackWriteKeys ((historyLookup d.epoch_history epoch).getD []) kv_pairs).1 = true ∧
      d' = checkResultState d kv_pairs epoch := by
  by_cases hW : d.epoch_watermark < epoch
  · by_cases hS : epoch ∈ d.epoch_set
    · rw [check_panicked_of_stale d kv_pairs epoch (Or.inr hS)] at h
      exact absurd h (by simp)
    · rw [check_eq_of_valid d kv_pairs epoch hW hS] at h
      by_cases ht : (trackWriteKeys ((historyLookup d.epoch_history epoch).getD []) kv_pairs).1 = true
      · rw [if_pos ht] at h
        exact ⟨hW, hS, ht, (CheckResult.ok.inj h).symm⟩
      · rw [if_neg ht] at h
        exact absurd h (by simp)
  · rw [check_panicked_of_stale d kv_pairs epoch (Or.inl (Nat.not_lt.mp hW))] at h
    exact absurd h (by simp)

theorem check_eq_panicked_dest (d : ConflictDetector)
    (kv_pairs : List (Bytes × HummockValue)) (epoch : Nat)
    (d'' : ConflictDetector)
    (h : d.check_conflict_and_track_write_batch kv_pairs epoch = .panicked d'') :
    d'' = d ∨ d'' = checkResultState d kv_pairs epoch := by
  by_cases hW : d.epoch_watermark < epoch
  · by_cases hS : epoch ∈ d.epoch_set
    · rw [check_panicked_of_stale d kv_pairs epoch (Or.inr hS)] at h
      exact Or.inl (CheckResult.panicked.inj h).symm
    · rw [check_eq_of_valid d kv_pairs epoch hW hS] at h
      by_cases ht : (trackWriteKeys ((historyLookup d.epoch_history epoch).getD []) kv_pairs).1 = true
      · rw [if_pos ht] at h
        exact absurd h (by simp)
      · rw [if_neg ht] at h
        exact Or.inr (CheckResult.panicked.inj h).symm
  · rw [check_panicked_of_stale d kv_pairs epoch (Or.inl (Nat.not_lt.mp hW))] at h
    exact Or.inl (CheckResult.panicked.inj h).symm

theorem archive_eq_some_dest (d : ConflictDetector) (epoch : Nat)
    (first_epoch : Option Nat) (d' : ConflictDetector)
    (h : d.archive_epoch epoch first_epoch = some d') :
    d.epoch_watermark < epoch ∧ epoch ∉ d.epoch_set ∧
      d'.epoch_history = historyRemove d.epoch_history epoch ∧
      d.epoch_watermark ≤ d'.epoch_watermark ∧
      ∀ x ∈ d'.epoch_set, x ∈ epoch :: d.epoch_set := by
  unfold ConflictDetector.archive_epoch at h
  by_cases hW : d.epoch_watermark < epoch
  · rw [if_neg (not_not_intro hW)] at h
    by_cases hS : epoch ∈ d.epoch_set
    · rw [if_pos hS] at h
      exact absurd h (by simp)
    · rw [if_neg hS] at h
      refine ⟨hW, hS, ?_⟩
      cases first_epoch with
      | none =>
        obtain rfl := (Option.some_inj.mp h).symm
        exact ⟨rfl, Nat.le_refl _, fun x hx => hx⟩
      | some f =>
        replace h :
            (if f - 1 ≠ (archivedState d epoch).epoch_watermark then
              (match (archivedState d epoch).set_watermark (f - 1) with
              | none => none
              | some d2 =>
                some { d2 with
                  epoch_set := d2.epoch_set.filter (fun x => decide (f - 1 < x)) })
            else some (archivedState d epoch)) = some d' := h
        by_cases hf : f - 1 = (archivedState d epoch).epoch_watermark
        · rw [if_neg (not_not_intro hf)] at h
          obtain rfl := (Option.some_inj.mp h).symm
          exact ⟨rfl, Nat.le_refl _, fun x hx => hx⟩
        · rw [if_pos hf] at h
          rcases hsw : (archivedState d epoch).set_watermark (f - 1) with _ | d2
          · rw [hsw] at h
            exact absurd h (by simp)
          · rw [hsw] at h
            obtain ⟨hlt, hd2⟩ := (set_watermark_eq_some_iff _ _ _).mp hsw
            subst hd2
            obtain rfl := (Option.some_inj.mp h).symm
            refine ⟨rfl, Nat.le_of_lt hlt, fun x hx => ?_⟩
            exact (List.mem_filter.mp hx).1
  · rw [if_pos hW] at h
    exact absurd h (by simp)

theorem step_watermark_mono {d d' : ConflictDetector}
    (h : ConflictDetector.Step d d') :
    d.epoch_watermark ≤ d'.epoch_watermark := by
  cases h with
  | check kv_pairs epoch hc =>
    obtain ⟨-, -, -, rfl⟩ := check_eq_ok_dest _ kv_pairs epoch _ hc
    exact Nat.le_refl _
  | archive epoch first_epoch ha =>
    exact (archive_eq_some_dest _ epoch first_epoch _ ha).2.2.2.1
  | setw epoch hw =>
    obtain ⟨hlt, hd⟩ := (set_watermark_eq_some_iff _ _ _).mp hw
    subst hd
    exact Nat.le_of_lt hlt

/-! ## Claims C2, C4, C5 -/

/-- C2: every call to `check_conflict_and_track_write_batch(kv_pairs, E)` in
which `E` is at or below the current watermark, or `E` is in the
archived-epoch set (even when above the watermark), panics before any key is
tracked — the detector state is returned unchanged — regardless of whether
`E` was previously written or tracked. -/
theorem write_to_stale_or_archived_epoch_panics (d : ConflictDetector)
    (kv_pairs : List (Bytes × HummockValue)) (epoch : Nat)
    (h : epoch ≤ d.get_epoch_watermark ∨ epoch ∈ d.epoch_set) :
    d.check_conflict_and_track_write_batch kv_pairs epoch = .panicked d :=
  check_panicked_of_stale d kv_pairs epoch h

theorem write_to_stale_or_archived_epoch_panics_witness :
    ((5:Nat) ∈ ([5] : List Nat) ∧
      ConflictDetector.get_epoch_watermark ⟨[], 0, [5]⟩ < 5) ∧
    ConflictDetector.check_conflict_and_track_write_batch ⟨[], 0, [5]⟩
      [([1], .delete [])] 5 = .panicked ⟨[], 0, [5]⟩ :=
  ⟨by decide,
   write_to_stale_or_archived_epoch_panics ⟨[], 0, [5]⟩ [([1], .delete [])] 5
     (Or.inr (by decide))⟩

/-- C4 (amended): in every reachable state of the `ConflictDetector`, every
epoch possessing an entry in the epoch-history map is not a member of the
archived-epoch set.  (The original claim also required such epochs to be
strictly above the watermark; that part is refuted by
`history_entry_at_or_below_watermark_cex`.) -/
theorem history_epochs_never_archived {d : ConflictDetector}
    (hr : ConflictDetector.Reachable d) :
    ∀ e : Nat, historyLookup d.epoch_history e ≠ none → e ∉ d.epoch_set := by
  induction hr with
  | init =>
    intro e he
    exact absurd rfl he
  | step hr hs ih =>
    rename_i d d'
    cases hs with
    | check kv_pairs epoch hc =>
      obtain ⟨hW, hS, ht, rfl⟩ := check_eq_ok_dest _ kv_pairs epoch _ hc
      intro e he
      simp only [checkResultState] at he ⊢
      by_cases heq : e = epoch
      · subst heq
        exact hS
      · rw [historyLookup_update_other _ _ _ _ heq] at he
        exact ih e he
    | archive epoch first_epoch ha =>
      obtain ⟨hW, hS, hhist, hwm, hsub⟩ := archive_eq_some_dest _ epoch first_epoch _ ha
      intro e he
      rw [hhist] at he
      by_cases heq : e = epoch
      · subst heq
        exact absurd (historyLookup_remove_self _ _) he
      · rw [historyLookup_remove_other _ _ _ heq] at he
        intro hmem
        rcases List.mem_cons.mp (hsub e hmem) with rfl | hin
        · exact heq rfl
        · exact ih e he hin
    | setw epoch hw =>
      obtain ⟨hlt, hd⟩ := (set_watermark_eq_some_iff _ _ _).mp hw
      subst hd
      intro e he
      exact ih e he

theorem history_epochs_never_archived_witness :
    (historyLookup (ConflictDetector.epoch_history ⟨[(233, [[1]])], 0, []⟩) 233 ≠ none) ∧
    (233:Nat) ∉ ConflictDetector.epoch_set ⟨[(233, [[1]])], 0, []⟩ :=
  ⟨by decide,
   history_epochs_never_archived
     (ConflictDetector.Reachable.step ConflictDetector.Reachable.init
       (ConflictDetector.Step.check ConflictDetector.default ⟨[(233, [[1]])], 0, []⟩
         [([1], .delete [])] 233 (by decide)))
     233 (by decide)⟩

/-- C4, counterexample to the original claim: after the non-panicking call
sequence `check([key 1], 5); archive_epoch(10, Some(10))` from the initial
state, epoch `5` still has an entry in the epoch-history map although the
watermark is `9`, so a history epoch need not be strictly greater than the
current watermark. -/
theorem history_entry_at_or_below_watermark_cex :
    ConflictDetector.default.check_conflict_and_track_write_batch
        [([1], .delete [])] 5 = .ok ⟨[(5, [[1]])], 0, []⟩ ∧
    ConflictDetector.archive_epoch ⟨[(5, [[1]])], 0, []⟩ 10 (some 10) =
        some ⟨[(5, [[1]])], 9, [10]⟩ ∧
    historyLookup (ConflictDetector.epoch_history ⟨[(5, [[1]])], 9, [10]⟩) 5 =
        some [[1]] ∧
    ¬ ConflictDetector.get_epoch_watermark ⟨[(5, [[1]])], 9, [10]⟩ < 5 := by
  refine ⟨by decide, by decide, by decide, by decide⟩

/-- C5: the epoch watermark is monotonically non-decreasing: `set_watermark e`
panics exactly when `e` is at or below the observed watermark and otherwise
sets the watermark to `e`; a panicking `check_conflict_and_track_write_batch`
leaves the watermark unchanged; and along any sequence of successful
operations the value of `get_epoch_watermark` never decreases. -/
theorem watermark_monotone :
    (∀ (d : ConflictDetector) (e : Nat),
      d.set_watermark e = none ↔ e ≤ d.get_epoch_watermark) ∧
    (∀ (d : ConflictDetector) (e : Nat), d.get_epoch_watermark < e →
      d.set_watermark e = some { d with epoch_watermark := e }) ∧
    (∀ (d d'' : ConflictDetector) (kv_pairs : List (Bytes × HummockValue))
      (epoch : Nat),
      d.check_conflict_and_track_write_batch kv_pairs epoch = .panicked d'' →
      d''.get_epoch_watermark = d.get_epoch_watermark) ∧
    (∀ d d' : ConflictDetector, Relation.ReflTransGen ConflictDetector.Step d d' →
      d.get_epoch_watermark ≤ d'.get_epoch_watermark) := by
  refine ⟨set_watermark_eq_none_iff, ?_, ?_, ?_⟩
  · intro d e hlt
    exact (set_watermark_eq_some_iff d e _).mpr ⟨hlt, rfl⟩
  · intro d d'' kv_pairs epoch hp
    rcases check_eq_panicked_dest d kv_pairs epoch d'' hp with rfl | rfl
    · rfl
    · rfl
  · intro d d' hstar
    induction hstar with
    | refl => exact Nat.le_refl _
    | tail hab hbc ih => exact Nat.le_trans ih (step_watermark_mono hbc)

theorem watermark_monotone_witness :
    ConflictDetector.default.set_watermark 0 = none ∧
    ConflictDetector.default.set_watermark 3 =
      some { ConflictDetector.default with epoch_watermark := 3 } ∧
    ConflictDetector.default.get_epoch_watermark ≤
      ConflictDetector.get_epoch_watermark ⟨[], 3, []⟩ :=
  ⟨(watermark_monotone.1 ConflictDetector.default 0).mpr (by decide),
   watermark_monotone.2.1 ConflictDetector.default 3 (by decide),
   watermark_monotone.2.2.2 ConflictDetector.default ⟨[], 3, []⟩
     (Relation.ReflTransGen.single
       (ConflictDetector.Step.setw ConflictDetector.default ⟨[], 3, []⟩ 3 (by decide)))⟩

/-! ## Claims C1, C3, C10 -/

theorem not_nodup_of_dup (k : Bytes) (l1 l2 l3 : List Bytes) :
    ¬ (l1 ++ k :: l2 ++ k :: l3).Nodup := by
  intro hnd
  rw [List.nodup_iff_count_le_one] at hnd
  have hcount := hnd k
  simp [List.count_append, List.count_cons] at hcount
  omega

/-- C1: a batch containing the same key twice panics under any epoch; a batch
whose key is already in the epoch's tracked set panics; and writing the same
key under two distinct valid epochs (both above the watermark, neither
archived, the key not yet tracked for either) succeeds with no panic. -/
theorem same_key_same_epoch_conflicts_distinct_epochs_ok
    (d : ConflictDetector) (k : Bytes) :
    (∀ (kv1 kv2 kv3 : List (Bytes × HummockValue)) (v v' : HummockValue)
      (epoch : Nat),
      ∃ dp, d.check_conflict_and_track_write_batch
        (kv1 ++ (k, v) :: kv2 ++ (k, v') :: kv3) epoch = .panicked dp) ∧
    (∀ (kv_pairs : List (Bytes × HummockValue)) (epoch : Nat)
      (s : List Bytes),
      historyLookup d.epoch_history epoch = some s → k ∈ s →
      k ∈ kv_pairs.map Prod.fst →
      ∃ dp, d.check_conflict_and_track_write_batch kv_pairs epoch = .panicked dp) ∧
    (∀ (E1 E2 : Nat) (v v' : HummockValue),
      d.get_epoch_watermark < E1 → d.get_epoch_watermark < E2 →
      E1 ∉ d.epoch_set → E2 ∉ d.epoch_set → E1 ≠ E2 →
      k ∉ (historyLookup d.epoch_history E1).getD [] →
      k ∉ (historyLookup d.epoch_history E2).getD [] →
      ∃ d1 d2, d.check_conflict_and_track_write_batch [(k, v)] E1 = .ok d1 ∧
        d1.check_conflict_and_track_write_batch [(k, v')] E2 = .ok d2) := by
  refine ⟨?_, ?_, ?_⟩
  · intro kv1 kv2 kv3 v v' epoch
    by_cases hW : d.epoch_watermark < epoch
    · by_cases hS : epoch ∈ d.epoch_set
      · exact ⟨d, check_panicked_of_stale _ _ _ (Or.inr hS)⟩
      · have hmap : (kv1 ++ (k, v) :: kv2 ++ (k, v') :: kv3).map Prod.fst =
            kv1.map Prod.fst ++ k :: kv2.map Prod.fst ++ k :: kv3.map Prod.fst := by
          simp
        have hnot : ¬ (trackWriteKeys
            ((historyLookup d.epoch_history epoch).getD [])
            (kv1 ++ (k, v) :: kv2 ++ (k, v') :: kv3)).1 = true := by
          intro ht
          have hnd := ((trackWriteKeys_ok_iff _ _).mp ht).1
          rw [hmap] at hnd
          exact not_nodup_of_dup k _ _ _ hnd
        refine ⟨checkResultState d (kv1 ++ (k, v) :: kv2 ++ (k, v') :: kv3) epoch, ?_⟩
        rw [check_eq_of_valid d _ epoch hW hS, if_neg hnot]
    · exact ⟨d, check_panicked_of_stale _ _ _ (Or.inl (Nat.not_lt.mp hW))⟩
  · intro kv_pairs epoch s hlook hks hkkv
    by_cases hW : d.epoch_watermark < epoch
    · by_cases hS : epoch ∈ d.epoch_set
      · exact ⟨d, check_panicked_of_stale _ _ _ (Or.inr hS)⟩
      · have hnot : ¬ (trackWriteKeys
            ((historyLookup d.epoch_history epoch).getD []) kv_pairs).1 = true := by
          rw [hlook]
          intro ht
          exact ((trackWriteKeys_ok_iff kv_pairs s).mp ht).2 k hkkv hks
        refine ⟨checkResultState d kv_pairs epoch, ?_⟩
        rw [check_eq_of_valid d kv_pairs epoch hW hS, if_neg hnot]
    · exact ⟨d, check_panicked_of_stale _ _ _ (Or.inl (Nat.not_lt.mp hW))⟩
  · intro E1 E2 v v' hW1 hW2 hS1 hS2 hne hk1 hk2
    have ht1 : (trackWriteKeys
        ((historyLookup d.epoch_history E1).getD []) [(k, v)]).1 = true := by
      simp [trackWriteKeys, hk1]
    have h1 : d.check_conflict_and_track_write_batch [(k, v)] E1 =
        .ok (checkResultState d [(k, v)] E1) := by
      rw [check_eq_of_valid d _ E1 hW1 hS1, if_pos ht1]
    have hlk2 : historyLookup (checkResultState d [(k, v)] E1).epoch_history E2 =
        historyLookup d.epoch_history E2 := by
      simp only [checkResultState]
      exact historyLookup_update_other _ _ _ _ (Ne.symm hne)
    have ht2 : (trackWriteKeys
        ((historyLookup (checkResultState d [(k, v)] E1).epoch_history E2).getD [])
        [(k, v')]).1 = true := by
      rw [hlk2]
      simp [trackWriteKeys, hk2]
    have h2 : (checkResultState d [(k, v)] E1).check_conflict_and_track_write_batch
        [(k, v')] E2 =
        .ok (checkResultState (checkResultState d [(k, v)] E1) [(k, v')] E2) := by
      rw [check_eq_of_valid (checkResultState d [(k, v)] E1) [(k, v')] E2 hW2 hS2,
        if_pos ht2]
    exact ⟨_, _, h1, h2⟩

theorem same_key_same_epoch_conflicts_distinct_epochs_ok_witness :
    ∃ d1 d2,
      ConflictDetector.default.check_conflict_and_track_write_batch
        [([1], .delete [])] 233 = .ok d1 ∧
      d1.check_conflict_and_track_write_batch [([1], .delete [])] 234 = .ok d2 :=
  (same_key_same_epoch_conflicts_distinct_epochs_ok ConflictDetector.default [1]).2.2
    233 234 (.delete []) (.delete []) (by decide) (by decide) (by decide) (by decide)
    (by decide) (by decide) (by decide)

/-- C3 (amended): for `archive_epoch(E, Some(F))` with `E` above the watermark,
`E` not yet archived, and — as forced by the counterexample — `F - 1` above
the watermark whenever it differs from it: the call succeeds; if `F - 1`
differs from the watermark then afterwards the watermark equals `F - 1` and
the archived-epoch set holds exactly the archived epochs (including `E`)
strictly greater than `F - 1`; in particular with `F = E` the watermark ends
at `E - 1` and every subsequent write to an epoch at or below `E` panics. -/
theorem archive_epoch_first_epoch_spec (d : ConflictDetector) (E F : Nat)
    (hW : d.get_epoch_watermark < E) (hS : E ∉ d.epoch_set)
    (hF : F - 1 ≠ d.get_epoch_watermark → d.get_epoch_watermark < F - 1) :
    ∃ d', d.archive_epoch E (some F) = some d' ∧
      (F - 1 ≠ d.get_epoch_watermark →
        d'.get_epoch_watermark = F - 1 ∧
        (∀ x : Nat, x ∈ d'.epoch_set ↔ x ∈ E :: d.epoch_set ∧ F - 1 < x)) ∧
      (F = E →
        d'.get_epoch_watermark = E - 1 ∧
        ∀ (kv_pairs : List (Bytes × HummockValue)) (e' : Nat), e' ≤ E →
          d'.check_conflict_and_track_write_batch kv_pairs e' = .panicked d') := by
  have hW' : d.epoch_watermark < E := hW
  have harch : d.archive_epoch E (some F) =
      (if F - 1 ≠ (archivedState d E).epoch_watermark then
        (match (archivedState d E).set_watermark (F - 1) with
        | none => none
        | some d2 =>
          some { d2 with
            epoch_set := d2.epoch_set.filter (fun x => decide (F - 1 < x)) })
      else some (archivedState d E)) := by
    unfold ConflictDetector.archive_epoch
    rw [if_neg (not_not_intro hW'), if_neg hS]
  by_cases hf : F - 1 = d.epoch_watermark
  · have hcond : ¬ (F - 1 ≠ (archivedState d E).epoch_watermark) := not_not_intro hf
    rw [harch, if_neg hcond]
    refine ⟨archivedState d E, rfl, ?_, ?_⟩
    · intro hne
      exact absurd hf hne
    · intro hFE
      subst hFE
      constructor
      · exact hf.symm
      · intro kv_pairs e' he'
        apply check_panicked_of_stale
        by_cases hE : e' = F
        · subst hE
          exact Or.inr (List.mem_cons_self _ _)
        · left
          show e' ≤ d.epoch_watermark
          rw [← hf]
          omega
  · have hlt : d.epoch_watermark < F - 1 := hF hf
    have hf' : F - 1 ≠ (archivedState d E).epoch_watermark := hf
    have hsw : (archivedState d E).set_watermark (F - 1) =
        some { archivedState d E with epoch_watermark := F - 1 } :=
      (set_watermark_eq_some_iff _ _ _).mpr ⟨hlt, rfl⟩
    rw [harch, if_pos hf', hsw]
    refine ⟨_, rfl, ?_, ?_⟩
    · intro _
      refine ⟨rfl, fun x => ?_⟩
      constructor
      · intro hx
        have hm := List.mem_filter.mp hx
        exact ⟨hm.1, by simpa using hm.2⟩
      · rintro ⟨hx1, hx2⟩
        exact List.mem_filter.mpr ⟨hx1, by simpa using hx2⟩
    · intro hFE
      subst hFE
      refine ⟨rfl, ?_⟩
      intro kv_pairs e' he'
      apply check_panicked_of_stale
      by_cases hE : e' = F
      · subst hE
        right
        refine List.mem_filter.mpr ⟨List.mem_cons_self _ _, ?_⟩
        simp only [decide_eq_true_eq]
        exact Nat.sub_lt (Nat.lt_of_le_of_lt (Nat.zero_le _) hW') Nat.one_pos
      · left
        show e' ≤ F - 1
        omega

/-- C3, counterexample to the original claim: from the reachable state with
watermark `9` and archived set `{10}` (produced by `archive_epoch(10, Some(10))`
from the initial state), the call `archive_epoch(11, Some(2))` meets the
claim's preconditions (`11` above the watermark and not archived) and
`2 - 1 = 1` differs from the watermark `9`, yet the call panics inside
`set_watermark` instead of finishing with the watermark at `1`. -/
theorem archive_epoch_regressing_first_epoch_cex :
    ConflictDetector.default.archive_epoch 10 (some 10) = some ⟨[], 9, [10]⟩ ∧
    ConflictDetector.get_epoch_watermark ⟨[], 9, [10]⟩ < 11 ∧
    (11 : Nat) ∉ ConflictDetector.epoch_set ⟨[], 9, [10]⟩ ∧
    (2 : Nat) - 1 ≠ ConflictDetector.get_epoch_watermark ⟨[], 9, [10]⟩ ∧
    ConflictDetector.archive_epoch ⟨[], 9, [10]⟩ 11 (some 2) = none := by
  refine ⟨by decide, by decide, by decide, by decide, by decide⟩

theorem archive_epoch_first_epoch_spec_witness :
    ∃ d', ConflictDetector.default.archive_epoch 233 (some 233) = some d' ∧
      ((233 : Nat) - 1 ≠ ConflictDetector.default.get_epoch_watermark →
        d'.get_epoch_watermark = 233 - 1 ∧
        (∀ x : Nat,
          x ∈ d'.epoch_set ↔ x ∈ 233 :: ConflictDetector.default.epoch_set ∧ 233 - 1 < x)) ∧
      ((233 : Nat) = 233 →
        d'.get_epoch_watermark = 233 - 1 ∧
        ∀ (kv_pairs : List (Bytes × HummockValue)) (e' : Nat), e' ≤ 233 →
          d'.check_conflict_and_track_write_batch kv_pairs e' = .panicked d') :=
  archive_epoch_first_epoch_spec ConflictDetector.default 233 233
    (by decide) (by decide) (by decide)

/-- C10: when `check_conflict_and_track_write_batch(kv_pairs, E)` panics
because the key at position `i` of the batch is already tracked (the first
`i` pairs insert without conflict and the key of pair `i` is in the tracked
set accumulated by then), the failed call does not roll back: in the detector
state left behind, every key at a position before `i` is in `E`'s tracked
key set. -/
theorem failed_check_keeps_prefix_tracked (d : ConflictDetector)
    (kv_pairs : List (Bytes × HummockValue)) (epoch : Nat) (i : Nat)
    (hW : d.get_epoch_watermark < epoch) (hS : epoch ∉ d.epoch_set)
    (hi : i < kv_pairs.length)
    (hpre : (trackWriteKeys ((historyLookup d.epoch_history epoch).getD [])
      (kv_pairs.take i)).1 = true)
    (hfail : (kv_pairs.get ⟨i, hi⟩).1 ∈
      (trackWriteKeys ((historyLookup d.epoch_history epoch).getD [])
        (kv_pairs.take i)).2) :
    ∃ dp, d.check_conflict_and_track_write_batch kv_pairs epoch = .panicked dp ∧
      ∀ j (hj : j < i),
        (kv_pairs.get ⟨j, Nat.lt_trans hj hi⟩).1 ∈
          (historyLookup dp.epoch_history epoch).getD [] := by
  have hdrop : kv_pairs.drop i = kv_pairs.get ⟨i, hi⟩ :: kv_pairs.drop (i + 1) :=
    List.drop_eq_getElem_cons hi
  have htotal : trackWriteKeys ((historyLookup d.epoch_history epoch).getD [])
      kv_pairs =
      (false, (trackWriteKeys ((historyLookup d.epoch_history epoch).getD [])
        (kv_pairs.take i)).2) := by
    calc trackWriteKeys ((historyLookup d.epoch_history epoch).getD []) kv_pairs
        = trackWriteKeys ((historyLookup d.epoch_history epoch).getD [])
            (kv_pairs.take i ++ kv_pairs.drop i) := by
          rw [List.take_append_drop]
      _ = trackWriteKeys
            (trackWriteKeys ((historyLookup d.epoch_history epoch).getD [])
              (kv_pairs.take i)).2 (kv_pairs.drop i) :=
          trackWriteKeys_append _ _ _ hpre
      _ = (false, (trackWriteKeys ((historyLookup d.epoch_history epoch).getD [])
            (kv_pairs.take i)).2) := by
          rw [hdrop]
          rcases hget : kv_pairs.get ⟨i, hi⟩ with ⟨key, val⟩
          rw [hget] at hfail
          simp only [trackWriteKeys]
          rw [if_pos hfail]
  refine ⟨checkResultState d kv_pairs epoch, ?_, ?_⟩
  · rw [check_eq_of_valid d kv_pairs epoch hW hS, if_neg (by rw [htotal]; simp)]
  · intro j hj
    simp only [checkResultState]
    rw [historyLookup_update_self, Option.getD_some, htotal]
    apply mem_trackWriteKeys_of_ok _ _ _ hpre
    have hjlen : j < (kv_pairs.take i).length := by
      simp only [List.length_take]
      omega
    have hjget : (kv_pairs.take i).get ⟨j, hjlen⟩ = kv_pairs.get ⟨j, Nat.lt_trans hj hi⟩ :=
      List.getElem_take kv_pairs
    exact List.mem_map.mpr ⟨_, hjget ▸ List.get_mem (kv_pairs.take i) _ hjlen, rfl⟩

theorem failed_check_keeps_prefix_tracked_witness :
    ∃ dp, ConflictDetector.default.check_conflict_and_track_write_batch
        [([1], .delete []), ([2], .delete []), ([1], .delete [])] 233 = .panicked dp ∧
      ∀ j (hj : j < 2),
        (([([1], .delete []), ([2], .delete []), ([1], .delete [])] :
            List (Bytes × HummockValue)).get
          ⟨j, Nat.lt_trans hj (by decide)⟩).1 ∈
          (historyLookup dp.epoch_history 233).getD [] :=
  failed_check_keeps_prefix_tracked ConflictDetector.default
    [([1], .delete []), ([2], .delete []), ([1], .delete [])] 233 2
    (by decide) (by decide) (by decide) (by decide) (by decide)

/-! ## Claims C6, C7: state-store facade -/

theorem bytesCmp_swap (a : Bytes) : ∀ b : Bytes, bytesCmp b a = (bytesCmp a b).swap := by
  induction a with
  | nil =>
    intro b
    cases b <;> simp [bytesCmp, Ordering.swap]
  | cons x xs ih =>
    intro b
    cases b with
    | nil => simp [bytesCmp, Ordering.swap]
    | cons y ys =>
      by_cases h1 : x < y
      · have h2 : ¬ y < x := by omega
        simp [bytesCmp, h1, h2, Ordering.swap]
      · by_cases h2 : y < x
        · simp [bytesCmp, h1, h2, Ordering.swap]
        · simp [bytesCmp, h1, h2, ih ys]

theorem bytesCmp_le_trans : ∀ a b c : Bytes,
    bytesCmp a b ≠ .gt → bytesCmp b c ≠ .gt → bytesCmp a c ≠ .gt := by
  intro a
  induction a with
  | nil =>
    intro b c _ _
    cases c <;> simp [bytesCmp]
  | cons x xs ih =>
    intro b c hab hbc
    cases b with
    | nil => simp [bytesCmp] at hab
    | cons y ys =>
      cases c with
      | nil => simp [bytesCmp] at hbc
      | cons z zs =>
        simp only [bytesCmp] at hab hbc ⊢
        by_cases h1 : x < y
        · by_cases h3 : y < z
          · have hxz : x < z := by omega
            simp [hxz]
          · by_cases h4 : z < y
            · simp [h3, h4] at hbc
            · have hxz : x < z := by omega
              simp [hxz]
        · by_cases h2 : y < x
          · simp [h1, h2] at hab
          · by_cases h3 : y < z
            · have hxz : x < z := by omega
              simp [hxz]
            · by_cases h4 : z < y
              · simp [h3, h4] at hbc
              · have hxz1 : ¬ x < z := by omega
                have hxz2 : ¬ z < x := by omega
                rw [if_neg hxz1, if_neg hxz2]
                rw [if_neg h1, if_neg h2] at hab
                rw [if_neg h3, if_neg h4] at hbc
                exact ih ys zs hab hbc

/-- C6: for every batch, the sequence `ingest_batch` passes to the storage
engine's `write_batch` is a permutation of the input pairs (each value taken
through the put/delete conversion) arranged in ascending lexicographic key
order. -/
theorem ingest_batch_sorted_perm (kv_pairs : List (Bytes × Option Bytes)) :
    (ingest_batch kv_pairs).Perm
      (kv_pairs.map (fun p => (p.1, hummockValueOfOption p.2))) ∧
    (ingest_batch kv_pairs).Pairwise
      (fun p q => bytesCmp p.1 q.1 ≠ Ordering.gt) := by
  constructor
  · exact (List.mergeSort_perm kv_pairs bytesLeKey).map
      (fun p => (p.1, hummockValueOfOption p.2))
  · have htrans : ∀ a b c : Bytes × Option Bytes,
        bytesLeKey a b = true → bytesLeKey b c = true → bytesLeKey a c = true := by
      intro a b c hab hbc
      simp only [bytesLeKey, decide_eq_true_eq] at hab hbc ⊢
      exact bytesCmp_le_trans _ _ _ hab hbc
    have htotal : ∀ a b : Bytes × Option Bytes,
        (bytesLeKey a b || bytesLeKey b a) = true := by
      intro a b
      simp only [bytesLeKey, Bool.or_eq_true, decide_eq_true_eq]
      by_cases h : bytesCmp a.1 b.1 = .gt
      · right
        rw [bytesCmp_swap, h]
        simp [Ordering.swap]
      · exact Or.inl h
    have hs := List.sorted_mergeSort htrans htotal kv_pairs
    unfold ingest_batch
    rw [List.pairwise_map]
    refine hs.imp ?_
    intro a b hab
    simpa [bytesLeKey] using hab

/-- C7: the public iterator adapter: while the underlying directed cursor is
valid, `next` returns an owned copy of the cursor's current key/value pair and
advances the cursor by one entry; once the cursor is invalid, `next` returns
an empty result and leaves the cursor untouched, so every subsequent `next`
returns an empty result as well. -/
theorem state_store_iter_next_spec (it : DirectedUserIterator) :
    (it.is_valid = true →
      HummockStateStoreIter.next it = (some (it.key, it.value), it.next) ∧
      (it.next).length + 1 = it.length) ∧
    (it.is_valid = false →
      HummockStateStoreIter.next it = (none, it) ∧
      ∀ n : Nat,
        HummockStateStoreIter.next
          (Nat.iterate (fun s => (HummockStateStoreIter.next s).2) n it) =
          (none, it)) := by
  constructor
  · intro hv
    refine ⟨?_, ?_⟩
    · unfold HummockStateStoreIter.next
      rw [if_pos hv]
    · cases it with
      | nil => simp [DirectedUserIterator.is_valid] at hv
      | cons p rest => simp [DirectedUserIterator.next]
  · intro hv
    have hit : it = [] := by
      cases it with
      | nil => rfl
      | cons p rest => simp [DirectedUserIterator.is_valid] at hv
    subst hit
    constructor
    · unfold HummockStateStoreIter.next
      rw [if_neg (by simp [DirectedUserIterator.is_valid])]
    · intro n
      have hfix : (fun s => (HummockStateStoreIter.next s).2)
          ([] : DirectedUserIterator) = [] := by
        simp [HummockStateStoreIter.next, DirectedUserIterator.is_valid]
      rw [Function.iterate_fixed hfix n]
      unfold HummockStateStoreIter.next
      rw [if_neg (by simp [DirectedUserIterator.is_valid])]

theorem state_store_iter_next_spec_witness :
    HummockStateStoreIter.next [(([1] : Bytes), ([2] : Bytes))] =
      (some (DirectedUserIterator.key [([1], [2])],
             DirectedUserIterator.value [([1], [2])]),
       DirectedUserIterator.next [([1], [2])]) ∧
    HummockStateStoreIter.next ([] : DirectedUserIterator) = (none, []) :=
  ⟨((state_store_iter_next_spec [([1], [2])]).1 (by decide)).1,
   ((state_store_iter_next_spec []).2 (by decide)).1⟩

/-! ## Claims C8, C9: checked vector division -/

theorem except_map_error_dest {ε σ τ : Type} (f : σ → τ) (r : Except ε σ) (e : ε)
    (h : r.map f = .error e) : r = .error e := by
  cases r with
  | error err => simpa [Except.map] using h
  | ok l => simp [Except.map] at h

theorem vdivIntLoop_error_dest {α β γ : Type} (as1 : α → γ) (as2 : β → γ)
    (checked_div : γ → γ → Option γ) :
    ∀ (a : List (Option α)) (b : List (Option β)) (e : ErrorCode),
      vdivIntLoop as1 as2 checked_div a b = .error e →
      e = .NumericValueOutOfRange ∧
      ∃ (i : Nat) (x : α) (y : β), a[i]? = some (some x) ∧
        b[i]? = some (some y) ∧ checked_div (as1 x) (as2 y) = none := by
  intro a
  induction a with
  | nil =>
    intro b e h
    simp [vdivIntLoop] at h
  | cons oa a' ih =>
    intro b e h
    cases b with
    | nil => simp [vdivIntLoop] at h
    | cons ob b' =>
      rcases oa with _ | x0
      · simp only [vdivIntLoop] at h
        have hinner := except_map_error_dest _ _ _ h
        obtain ⟨he, i, x, y, hx, hy, hc⟩ := ih b' e hinner
        exact ⟨he, i + 1, x, y, by simpa using hx, by simpa using hy, hc⟩
      · rcases ob with _ | y0
        · simp only [vdivIntLoop] at h
          have hinner := except_map_error_dest _ _ _ h
          obtain ⟨he, i, x, y, hx, hy, hc⟩ := ih b' e hinner
          exact ⟨he, i + 1, x, y, by simpa using hx, by simpa using hy, hc⟩
        · simp only [vdivIntLoop] at h
          rcases hc0 : checked_div (as1 x0) (as2 y0) with _ | c
          · rw [hc0] at h
            have he : e = .NumericValueOutOfRange := by
              cases h
              rfl
            exact ⟨he, 0, x0, y0, by simp, by simp, hc0⟩
          · rw [hc0] at h
            have hinner := except_map_error_dest _ _ _ h
            obtain ⟨he, i, x, y, hx, hy, hc⟩ := ih b' e hinner
            exact ⟨he, i + 1, x, y, by simpa using hx, by simpa using hy, hc⟩

theorem vdivIntLoop_error_of_pos {α β γ : Type} (as1 : α → γ) (as2 : β → γ)
    (checked_div : γ → γ → Option γ) :
    ∀ (a : List (Option α)) (b : List (Option β)) (i : Nat) (x : α) (y : β),
      a[i]? = some (some x) → b[i]? = some (some y) →
      checked_div (as1 x) (as2 y) = none →
      vdivIntLoop as1 as2 checked_div a b = .error .NumericValueOutOfRange := by
  intro a
  induction a with
  | nil =>
    intro b i x y hx
    simp at hx
  | cons oa a' ih =>
    intro b i x y hx hy hc
    cases b with
    | nil => simp at hy
    | cons ob b' =>
      cases i with
      | zero =>
        rw [List.getElem?_cons_zero, Option.some_inj] at hx hy
        subst hx
        subst hy
        simp only [vdivIntLoop]
        rw [hc]
      | succ i =>
        rw [List.getElem?_cons_succ] at hx hy
        have hinner := ih b' i x y hx hy hc
        rcases oa with _ | x0
        · simp only [vdivIntLoop]
          rw [hinner]
          rfl
        · rcases ob with _ | y0
          · simp only [vdivIntLoop]
            rw [hinner]
            rfl
          · simp only [vdivIntLoop]
            rcases hc0 : checked_div (as1 x0) (as2 y0) with _ | c
            · rfl
            · rw [hinner]
              rfl

theorem vdivIntLoop_ok_of_all {α β γ : Type} (as1 : α → γ) (as2 : β → γ)
    (checked_div : γ → γ → Option γ) :
    ∀ (a : List (Option α)) (b : List (Option β)),
      (∀ (i : Nat) (x : α) (y : β), a[i]? = some (some x) →
        b[i]? = some (some y) → checked_div (as1 x) (as2 y) ≠ none) →
      vdivIntLoop as1 as2 checked_div a b =
        .ok (List.zipWith (elemDivInt as1 as2 checked_div) a b) := by
  intro a
  induction a with
  | nil =>
    intro b _
    cases b <;> simp [vdivIntLoop]
  | cons oa a' ih =>
    intro b hall
    cases b with
    | nil => simp [vdivIntLoop]
    | cons ob b' =>
      have hall' : ∀ (i : Nat) (x : α) (y : β), a'[i]? = some (some x) →
          b'[i]? = some (some y) → checked_div (as1 x) (as2 y) ≠ none := by
        intro i x y hx hy
        exact hall (i + 1) x y (by simpa using hx) (by simpa using hy)
      rcases oa with _ | x0
      · simp only [vdivIntLoop]
        rw [ih b' hall']
        simp [Except.map, elemDivInt]
      · rcases ob with _ | y0
        · simp only [vdivIntLoop]
          rw [ih b' hall']
          simp [Except.map, elemDivInt]
        · rcases hc0 : checked_div (as1 x0) (as2 y0) with _ | c
          · exact absurd hc0 (hall 0 x0 y0 (by simp) (by simp))
          · simp only [vdivIntLoop]
            rw [hc0, ih b' hall']
            simp [Except.map, elemDivInt, hc0]

theorem vdivFloatLoop_error_dest {α β γ : Type} (as1 : α → γ) (as2 : β → γ)
    (fdiv : γ → γ → γ) (finiteTest nanTest : γ → Bool) :
    ∀ (a : List (Option α)) (b : List (Option β)) (e : ErrorCode),
      vdivFloatLoop as1 as2 fdiv finiteTest nanTest a b = .error e →
      e = .NumericValueOutOfRange ∧
      ∃ (i : Nat) (x : α) (y : β), a[i]? = some (some x) ∧
        b[i]? = some (some y) ∧
        (finiteTest (fdiv (as1 x) (as2 y)) && !nanTest (fdiv (as1 x) (as2 y))) = false := by
  intro a
  induction a with
  | nil =>
    intro b e h
    simp [vdivFloatLoop] at h
  | cons oa a' ih =>
    intro b e h
    cases b with
    | nil => simp [vdivFloatLoop] at h
    | cons ob b' =>
      rcases oa with _ | x0
      · simp only [vdivFloatLoop] at h
        have hinner := except_map_error_dest _ _ _ h
        obtain ⟨he, i, x, y, hx, hy, hc⟩ := ih b' e hinner
        exact ⟨he, i + 1, x, y, by simpa using hx, by simpa using hy, hc⟩
      · rcases ob with _ | y0
        · simp only [vdivFloatLoop] at h
          have hinner := except_map_error_dest _ _ _ h
          obtain ⟨he, i, x, y, hx, hy, hc⟩ := ih b' e hinner
          exact ⟨he, i + 1, x, y, by simpa using hx, by simpa using hy, hc⟩
        · simp only [vdivFloatLoop] at h
          by_cases hp : (finiteTest (fdiv (as1 x0) (as2 y0)) &&
              !nanTest (fdiv (as1 x0) (as2 y0))) = true
          · rw [if_pos hp] at h
            have hinner := except_map_error_dest _ _ _ h
            obtain ⟨he, i, x, y, hx, hy, hc⟩ := ih b' e hinner
            exact ⟨he, i + 1, x, y, by simpa using hx, by simpa using hy, hc⟩
          · rw [if_neg hp] at h
            have he : e = .NumericValueOutOfRange := by
              cases h
              rfl
            exact ⟨he, 0, x0, y0, by simp, by simp, Bool.eq_false_iff.mpr hp⟩

theorem vdivFloatLoop_error_of_pos {α β γ : Type} (as1 : α → γ) (as2 : β → γ)
    (fdiv : γ → γ → γ) (finiteTest nanTest : γ → Bool) :
    ∀ (a : List (Option α)) (b : List (Option β)) (i : Nat) (x : α) (y : β),
      a[i]? = some (some x) → b[i]? = some (some y) →
      (finiteTest (fdiv (as1 x) (as2 y)) && !nanTest (fdiv (as1 x) (as2 y))) = false →
      vdivFloatLoop as1 as2 fdiv finiteTest nanTest a b =
        .error .NumericValueOutOfRange := by
  intro a
  induction a with
  | nil =>
    intro b i x y hx
    simp at hx
  | cons oa a' ih =>
    intro b i x y hx hy hc
    cases b with
    | nil => simp at hy
    | cons ob b' =>
      cases i with
      | zero =>
        rw [List.getElem?_cons_zero, Option.some_inj] at hx hy
        subst hx
        subst hy
        simp only [vdivFloatLoop]
        rw [if_neg (by simp [hc])]
      | succ i =>
        rw [List.getElem?_cons_succ] at hx hy
        have hinner := ih b' i x y hx hy hc
        rcases oa with _ | x0
        · simp only [vdivFloatLoop]
          rw [hinner]
          rfl
        · rcases ob with _ | y0
          · simp only [vdivFloatLoop]
            rw [hinner]
            rfl
          · simp only [vdivFloatLoop]
            by_cases hp : (finiteTest (fdiv (as1 x0) (as2 y0)) &&
                !nanTest (fdiv (as1 x0) (as2 y0))) = true
            · rw [if_pos hp, hinner]
              rfl
            · rw [if_neg hp]

theorem vdivFloatLoop_ok_of_all {α β γ : Type} (as1 : α → γ) (as2 : β → γ)
    (fdiv : γ → γ → γ) (finiteTest nanTest : γ → Bool) :
    ∀ (a : List (Option α)) (b : List (Option β)),
      (∀ (i : Nat) (x : α) (y : β), a[i]? = some (some x) →
        b[i]? = some (some y) →
        (finiteTest (fdiv (as1 x) (as2 y)) && !nanTest (fdiv (as1 x) (as2 y))) = true) →
      vdivFloatLoop as1 as2 fdiv finiteTest nanTest a b =
        .ok (List.zipWith (elemDivFloat as1 as2 fdiv) a b) := by
  intro a
  induction a with
  | nil =>
    intro b _
    cases b <;> simp [vdivFloatLoop]
  | cons oa a' ih =>
    intro b hall
    cases b with
    | nil => simp [vdivFloatLoop]
    | cons ob b' =>
      have hall' : ∀ (i : Nat) (x : α) (y : β), a'[i]? = some (some x) →
          b'[i]? = some (some y) →
          (finiteTest (fdiv (as1 x) (as2 y)) && !nanTest (fdiv (as1 x) (as2 y))) = true := by
        intro i x y hx hy
        exact hall (i + 1) x y (by simpa using hx) (by simpa using hy)
      rcases oa with _ | x0
      · simp only [vdivFloatLoop]
        rw [ih b' hall']
        simp [Except.map, elemDivFloat]
      · rcases ob with _ | y0
        · simp only [vdivFloatLoop]
          rw [ih b' hall']
          simp [Except.map, elemDivFloat]
        · simp only [vdivFloatLoop]
          rw [if_pos (hall 0 x0 y0 (by simp) (by simp)), ih b' hall']
          simp [Except.map, elemDivFloat]

theorem vdivIntLoop_ok_dest {α β γ : Type} (as1 : α → γ) (as2 : β → γ)
    (checked_div : γ → γ → Option γ)
    (a : List (Option α)) (b : List (Option β)) (out : List (Option γ))
    (h : vdivIntLoop as1 as2 checked_div a b = .ok out) :
    out = List.zipWith (elemDivInt as1 as2 checked_div) a b := by
  by_cases hex : ∃ (i : Nat) (x : α) (y : β), a[i]? = some (some x) ∧
      b[i]? = some (some y) ∧ checked_div (as1 x) (as2 y) = none
  · obtain ⟨i, x, y, hx, hy, hc⟩ := hex
    rw [vdivIntLoop_error_of_pos as1 as2 checked_div a b i x y hx hy hc] at h
    simp at h
  · have hok := vdivIntLoop_ok_of_all as1 as2 checked_div a b
      (fun i x y hx hy hc => hex ⟨i, x, y, hx, hy, hc⟩)
    rw [hok] at h
    exact (Except.ok.inj h).symm

/-- C8: over equal-length arrays, `vector_div_primitive_integer` returns an
error exactly when some position has both operands present and `checked_div`
yields nothing, and `vector_div_primitive_float` returns an error exactly
when some position has both operands present and the division fails the
finite/not-NaN test; every returned error is the typed recoverable
`NumericValueOutOfRange` value of the `Except` result (not a panic); and when
no failing position exists each function returns the array of elementwise
quotients (with nulls at positions missing an operand). -/
theorem vector_div_out_of_range_spec {α β γ : Type} (as1 : α → γ) (as2 : β → γ)
    (checked_div : γ → γ → Option γ) (fdiv : γ → γ → γ)
    (finiteTest nanTest : γ → Bool)
    (a : List (Option α)) (b : List (Option β)) (hlen : a.length = b.length) :
    ((∃ e, vector_div_primitive_integer as1 as2 checked_div a b = .error e) ↔
      ∃ (i : Nat) (x : α) (y : β), a[i]? = some (some x) ∧
        b[i]? = some (some y) ∧ checked_div (as1 x) (as2 y) = none) ∧
    (∀ e, vector_div_primitive_integer as1 as2 checked_div a b = .error e →
      e = .NumericValueOutOfRange) ∧
    ((¬ ∃ (i : Nat) (x : α) (y : β), a[i]? = some (some x) ∧
        b[i]? = some (some y) ∧ checked_div (as1 x) (as2 y) = none) →
      vector_div_primitive_integer as1 as2 checked_div a b =
        .ok (List.zipWith (elemDivInt as1 as2 checked_div) a b)) ∧
    ((∃ e, vector_div_primitive_float as1 as2 fdiv finiteTest nanTest a b = .error e) ↔
      ∃ (i : Nat) (x : α) (y : β), a[i]? = some (some x) ∧
        b[i]? = some (some y) ∧
        (finiteTest (fdiv (as1 x) (as2 y)) && !nanTest (fdiv (as1 x) (as2 y))) = false) ∧
    (∀ e, vector_div_primitive_float as1 as2 fdiv finiteTest nanTest a b = .error e →
      e = .NumericValueOutOfRange) ∧
    ((¬ ∃ (i : Nat) (x : α) (y : β), a[i]? = some (some x) ∧
        b[i]? = some (some y) ∧
        (finiteTest (fdiv (as1 x) (as2 y)) && !nanTest (fdiv (as1 x) (as2 y))) = false) →
      vector_div_primitive_float as1 as2 fdiv finiteTest nanTest a b =
        .ok (List.zipWith (elemDivFloat as1 as2 fdiv) a b)) := by
  refine ⟨⟨?_, ?_⟩, ?_, ?_, ⟨?_, ?_⟩, ?_, ?_⟩
  · rintro ⟨e, he⟩
    exact (vdivIntLoop_error_dest as1 as2 checked_div a b e he).2
  · rintro ⟨i, x, y, hx, hy, hc⟩
    exact ⟨_, vdivIntLoop_error_of_pos as1 as2 checked_div a b i x y hx hy hc⟩
  · intro e he
    exact (vdivIntLoop_error_dest as1 as2 checked_div a b e he).1
  · intro hne
    exact vdivIntLoop_ok_of_all as1 as2 checked_div a b
      (fun i x y hx hy hc => hne ⟨i, x, y, hx, hy, hc⟩)
  · rintro ⟨e, he⟩
    exact (vdivFloatLoop_error_dest as1 as2 fdiv finiteTest nanTest a b e he).2
  · rintro ⟨i, x, y, hx, hy, hc⟩
    exact ⟨_, vdivFloatLoop_error_of_pos as1 as2 fdiv finiteTest nanTest a b i x y hx hy hc⟩
  · intro e he
    exact (vdivFloatLoop_error_dest as1 as2 fdiv finiteTest nanTest a b e he).1
  · intro hne
    refine vdivFloatLoop_ok_of_all as1 as2 fdiv finiteTest nanTest a b ?_
    intro i x y hx hy
    by_cases hpv : (finiteTest (fdiv (as1 x) (as2 y)) &&
        !nanTest (fdiv (as1 x) (as2 y))) = true
    · exact hpv
    · exact absurd ⟨i, x, y, hx, hy, Bool.eq_false_iff.mpr hpv⟩ hne

theorem vector_div_out_of_range_spec_witness :
    (∃ e, vector_div_primitive_integer (id : Int → Int) id checkedDivI64
      [some 1] [some 0] = .error e) ∧
    (∃ e, vector_div_primitive_float (id : Int → Int) id (fun x y => x + y)
      (fun v => decide (v ≠ 5)) (fun _ => false) [some 2] [some 3] = .error e) :=
  ⟨(vector_div_out_of_range_spec id id checkedDivI64 (fun x y => x + y)
      (fun v => decide (v ≠ 5)) (fun _ => false) [some 1] [some 0] rfl).1.mpr
      ⟨0, 1, 0, by decide, by decide, by decide⟩,
   (vector_div_out_of_range_spec id id checkedDivI64 (fun x y => x + y)
      (fun v => decide (v ≠ 5)) (fun _ => false) [some 2] [some 3] rfl).2.2.2.1.mpr
      ⟨0, 2, 3, by decide, by decide, by decide⟩⟩

/-- C9: at the concrete `i64` instance with identity casts: a position with
both operands present and divisor zero makes `vector_div_primitive_integer`
return the out-of-range error for the whole call; when the call does return
an array, every position with an absent operand holds a null element; and a
call whose both-present positions all divide successfully returns an array —
absent positions alone never cause an error. -/
theorem vector_div_int_zero_divisor_spec :
    (∀ (a b : List (Option Int)) (i : Nat) (x : Int),
      a[i]? = some (some x) → b[i]? = some (some 0) →
      vector_div_primitive_integer id id checkedDivI64 a b =
        .error .NumericValueOutOfRange) ∧
    (∀ (a b out : List (Option Int)) (j : Nat),
      vector_div_primitive_integer id id checkedDivI64 a b = .ok out →
      j < a.length → j < b.length →
      (a[j]? = some none ∨ b[j]? = some none) → out[j]? = some none) ∧
    (∀ a b : List (Option Int),
      (∀ (i : Nat) (x y : Int), a[i]? = some (some x) → b[i]? = some (some y) →
        checkedDivI64 x y ≠ none) →
      ∃ out, vector_div_primitive_integer id id checkedDivI64 a b = .ok out) := by
  refine ⟨?_, ?_, ?_⟩
  · intro a b i x hx hy
    exact vdivIntLoop_error_of_pos id id checkedDivI64 a b i x 0 hx hy
      (by simp [checkedDivI64])
  · intro a b out j hok hja hjb habs
    have hout := vdivIntLoop_ok_dest id id checkedDivI64 a b out hok
    subst hout
    rw [List.getElem?_zipWith]
    rcases habs with habs | habs
    · rw [habs, List.getElem?_eq_getElem hjb]
      rcases b[j] with _ | yb <;> rfl
    · rw [habs, List.getElem?_eq_getElem hja]
      rcases a[j] with _ | xa <;> rfl
  · intro a b hall
    exact ⟨_, vdivIntLoop_ok_of_all id id checkedDivI64 a b hall⟩

theorem vector_div_int_zero_divisor_spec_witness :
    vector_div_primitive_integer id id checkedDivI64 [some 4] [some 0] =
      .error .NumericValueOutOfRange ∧
    ([none, some 2] : List (Option Int))[0]? = some none :=
  ⟨vector_div_int_zero_divisor_spec.1 [some 4] [some 0] 0 4 (by decide) (by decide),
   vector_div_int_zero_divisor_spec.2.1 [none, some 6] [some 2, some 3]
     [none, some 2] 0 rfl (by decide) (by decide) (Or.inl (by decide))⟩
